import Mathlib

/-!
# Verification of the horizon ray-marching engine

Shallow embedding of the horizon computation from `src/horizon.ts` (and the
two earlier variants of the same engine found in the repository), together
with proofs of the behavioural properties claimed for it.

Numbers are idealized as real numbers; JavaScript `Math.sin`, `Math.cos`,
`Math.atan2` and `Math.floor` become `Real.sin`, `Real.cos`, a standard
`atan2` on `ℝ` and `Int.floor`.  The raster buffer (`Float32Array`) becomes a
list of reals whose out-of-range reads yield 0, mirroring the `?? 0`
fallback in the source.  The `while (true)` ray march is embedded as a
fuel-indexed step function; the fuel is instantiated with the first
out-of-bounds step, which is proven to exist for every compass direction.
-/

namespace Horizon

/-- Conversion factor from radians to degrees (`RAD_TO_DEG` in the source). -/
noncomputable def RAD_TO_DEG : ℝ := 180 / Real.pi

/-- Conversion factor from degrees to radians (`DEG_TO_RAD` in the source). -/
noncomputable def DEG_TO_RAD : ℝ := Real.pi / 180

/-- Mathematical semantics of the JavaScript builtin `Math.atan2 y x`. -/
noncomputable def atan2 (y x : ℝ) : ℝ :=
  if 0 < x then Real.arctan (y / x)
  else if x < 0 then
    (if 0 ≤ y then Real.arctan (y / x) + Real.pi else Real.arctan (y / x) - Real.pi)
  else if 0 < y then Real.pi / 2
  else if y < 0 then -(Real.pi / 2)
  else 0

/-- Read of a JavaScript `Float32Array` at an integer index together with the
source's `?? 0` fallback: a read outside the buffer yields `undefined`,
which `?? 0` turns into 0. -/
def arrayGet (data : List ℝ) (i : ℤ) : ℝ :=
  if 0 ≤ i then data.getD i.toNat 0 else 0

/-- `isOutOfBounds` from `src/horizon.ts`:
`pixelX < 0 || pixelY < 0 || pixelX >= width || pixelY >= height`. -/
def isOutOfBounds (pixelX pixelY : ℤ) (width height : ℕ) : Prop :=
  pixelX < 0 ∨ pixelY < 0 ∨ (width : ℤ) ≤ pixelX ∨ (height : ℤ) ≤ pixelY

instance (pixelX pixelY : ℤ) (width height : ℕ) :
    Decidable (isOutOfBounds pixelX pixelY width height) := by
  unfold isOutOfBounds
  infer_instance

/-- Result record returned for one compass direction (`HorizonResult` in
`src/types.ts`). -/
@[ext]
structure HorizonResult where
  direction : ℝ
  elevationAngleDegrees : ℝ
  distanceKm : ℝ

/-- The variables captured by the ray-march loop of `findHorizon`:
the raster with its dimensions, the observer position, the per-step unit
vector, the pixel size and the observer's base elevation. -/
structure ScanCtx where
  rasterData : List ℝ
  width : ℕ
  height : ℕ
  observerX : ℝ
  observerY : ℝ
  stepX : ℝ
  stepY : ℝ
  pixelSize : ℝ
  baseElevation : ℝ

/-- The mutable state of the ray-march loop: the running maximum angle
(`⊥` encodes the initial `-Infinity`), its distance, and the step counter. -/
structure ScanState where
  maxAngle : WithBot ℝ
  maxDistance : ℝ
  step : ℕ

/-- `Math.floor(observerX + stepX * step)` of the loop body. -/
noncomputable def pixelXAt (c : ScanCtx) (n : ℕ) : ℤ :=
  ⌊c.observerX + c.stepX * n⌋

/-- `Math.floor(observerY + stepY * step)` of the loop body. -/
noncomputable def pixelYAt (c : ScanCtx) (n : ℕ) : ℤ :=
  ⌊c.observerY + c.stepY * n⌋

/-- The loop's exit test at step `n`. -/
noncomputable def oobAt (c : ScanCtx) (n : ℕ) : Prop :=
  isOutOfBounds (pixelXAt c n) (pixelYAt c n) c.width c.height

noncomputable instance (c : ScanCtx) (n : ℕ) : Decidable (oobAt c n) := by
  unfold oobAt
  infer_instance

/-- `rasterData[pixelY * width + pixelX] ?? 0` at step `n`. -/
noncomputable def elevationAt (c : ScanCtx) (n : ℕ) : ℝ :=
  arrayGet c.rasterData (pixelYAt c n * c.width + pixelXAt c n)

/-- `distance = step * pixelSize` at step `n`. -/
noncomputable def distanceAt (c : ScanCtx) (n : ℕ) : ℝ :=
  n * c.pixelSize

/-- `angle = Math.atan2(elevation - baseElevation, distance) * RAD_TO_DEG`
at step `n`. -/
noncomputable def angleAt (c : ScanCtx) (n : ℕ) : ℝ :=
  atan2 (elevationAt c n - c.baseElevation) (distanceAt c n) * RAD_TO_DEG

/-- Fuel-indexed embedding of the `while (true)` loop of `findHorizon` in
`src/horizon.ts`: check bounds, sample, compare the angle against the
running maximum (strictly), and advance the step counter. -/
noncomputable def scanGo (c : ScanCtx) : ℕ → ScanState → ScanState
  | 0, s => s
  | fuel + 1, s =>
    if oobAt c s.step then s
    else
      let angle := angleAt c s.step
      let s1 : ScanState :=
        if s.maxAngle < (angle : WithBot ℝ) then
          { maxAngle := (angle : WithBot ℝ)
            maxDistance := distanceAt c s.step
            step := s.step }
        else s
      scanGo c fuel { maxAngle := s1.maxAngle, maxDistance := s1.maxDistance, step := s.step + 1 }

/-- The first step at which the ray leaves the raster (0 when no such step
exists; for the unit direction vectors produced from a compass bearing one
always exists). -/
noncomputable def exitStep (c : ScanCtx) : ℕ :=
  sInf {n : ℕ | 1 ≤ n ∧ oobAt c n}

/-- The loop context built by `findHorizon` from a compass direction:
`stepX = sin(direction * DEG_TO_RAD)`, `stepY = -cos(direction * DEG_TO_RAD)`. -/
noncomputable def dirCtx (rasterData : List ℝ) (width height : ℕ)
    (observerX observerY direction pixelSize baseElevation : ℝ) : ScanCtx :=
  { rasterData := rasterData
    width := width
    height := height
    observerX := observerX
    observerY := observerY
    stepX := Real.sin (direction * DEG_TO_RAD)
    stepY := -Real.cos (direction * DEG_TO_RAD)
    pixelSize := pixelSize
    baseElevation := baseElevation }

/-- `findHorizon` from `src/horizon.ts`: march the ray until it leaves the
raster, then report the largest angle seen (`0` when the initial
`-Infinity` was never replaced) and the corresponding distance in km. -/
noncomputable def findHorizon (rasterData : List ℝ) (width height : ℕ)
    (observerX observerY direction pixelSize baseElevation : ℝ) : HorizonResult :=
  let c := dirCtx rasterData width height observerX observerY direction pixelSize baseElevation
  let s := scanGo c (exitStep c) ⟨⊥, 0, 1⟩
  { direction := direction
    elevationAngleDegrees := s.maxAngle.unbot' 0
    distanceKm := s.maxDistance / 1000 }

/-- `toPixel` from `src/horizon.ts`; the proj4 forward transformation is an
opaque external collaborator, modelled as the function argument
`projection : longitude → latitude → (projX, projY)`. -/
noncomputable def toPixel (latitude longitude originX pixelWidth originY pixelHeight : ℝ)
    (projection : ℝ → ℝ → ℝ × ℝ) : ℝ × ℝ :=
  let p := projection longitude latitude
  ((p.1 - originX) / pixelWidth, (p.2 - originY) / pixelHeight)

/-- The base-elevation lookup performed once per query by `calculateHorizon`:
`rasterData[Math.floor(pixelY) * width + Math.floor(pixelX)] ?? 0`,
with no bounds check on the observer pixel. -/
noncomputable def queryBaseElevation (projection : ℝ → ℝ → ℝ × ℝ)
    (originX pixelWidth originY pixelHeight : ℝ)
    (rasterData : List ℝ) (width : ℕ) (latitude longitude : ℝ) : ℝ :=
  let observerPixel := toPixel latitude longitude originX pixelWidth originY pixelHeight projection
  arrayGet rasterData (⌊observerPixel.2⌋ * width + ⌊observerPixel.1⌋)

/-- The `calculateHorizon` closure returned by `loadElevationData` in
`src/horizon.ts`: resolve the observer pixel and base elevation once, then
map `findHorizon` over `Array.from({length: endDirection - startDirection + 1})`. -/
noncomputable def calculateHorizon (projection : ℝ → ℝ → ℝ × ℝ)
    (originX pixelWidth originY pixelHeight : ℝ)
    (rasterData : List ℝ) (width height : ℕ) (pixelSize : ℝ)
    (latitude longitude : ℝ) (startDirection endDirection : ℤ) : List HorizonResult :=
  let observerPixel := toPixel latitude longitude originX pixelWidth originY pixelHeight projection
  let baseElevation := queryBaseElevation projection originX pixelWidth originY pixelHeight
    rasterData width latitude longitude
  (List.range (endDirection - startDirection + 1).toNat).map
    (fun directionOffset : ℕ =>
      findHorizon rasterData width height observerPixel.1 observerPixel.2
        ((startDirection : ℝ) + directionOffset) pixelSize baseElevation)

/-- The fields of the opened GDAL dataset that `loadElevationData` consumes.
`geoTransform` and `srs` are `Option`s because the source tests them for
JavaScript truthiness before use; `srs` is modelled by the projection
function that `srs.toProj4()` combined with `proj4` provides. -/
structure Dataset where
  geoTransform : Option (ℝ × ℝ × ℝ × ℝ × ℝ × ℝ)
  srs : Option (ℝ → ℝ → ℝ × ℝ)
  rasterWidth : ℕ
  rasterHeight : ℕ
  rasterData : List ℝ

/-- `ElevationData` from `src/types.ts`: the object returned by a successful
load, whose only member is the `calculateHorizon` query closure. -/
structure ElevationData where
  calculateHorizon : ℝ → ℝ → ℤ → ℤ → List HorizonResult

/-- `loadElevationData` from `src/horizon.ts`, with the file already opened
into a `Dataset`: fail when the geo transform or the spatial reference is
absent, otherwise capture the raster and return the query closure. -/
noncomputable def loadElevationData (dataset : Dataset) : Except String ElevationData :=
  match dataset.geoTransform with
  | none => Except.error "Missing geoTransform"
  | some gt =>
    match dataset.srs with
    | none => Except.error "Missing spatial reference system"
    | some projection =>
      let originX := gt.1
      let pixelWidth := gt.2.1
      let originY := gt.2.2.2.1
      let pixelHeight := gt.2.2.2.2.2
      let pixelSize := |pixelWidth|
      Except.ok ⟨fun latitude longitude startDirection endDirection =>
        calculateHorizon projection originX pixelWidth originY pixelHeight
          dataset.rasterData dataset.rasterWidth dataset.rasterHeight pixelSize
          latitude longitude startDirection endDirection⟩

namespace V2

/-- The ray-march loop of `findHorizon` in the intermediate variant
`src/unnamed/part_002`, embedded separately so that its agreement with the
current engine is a theorem rather than a definition. -/
noncomputable def scanGo (c : ScanCtx) : ℕ → ScanState → ScanState
  | 0, s => s
  | fuel + 1, s =>
    if oobAt c s.step then s
    else
      let angle := angleAt c s.step
      let s1 : ScanState :=
        if s.maxAngle < (angle : WithBot ℝ) then
          { maxAngle := (angle : WithBot ℝ)
            maxDistance := distanceAt c s.step
            step := s.step }
        else s
      V2.scanGo c fuel { maxAngle := s1.maxAngle, maxDistance := s1.maxDistance, step := s.step + 1 }

/-- `findHorizon` from `src/unnamed/part_002` (identical loop; the result
field is spelled `distance_km` there, with the same numeric content). -/
noncomputable def findHorizon (rasterData : List ℝ) (width height : ℕ)
    (observerX observerY direction pixelSize baseElevation : ℝ) : HorizonResult :=
  let c := dirCtx rasterData width height observerX observerY direction pixelSize baseElevation
  let s := V2.scanGo c (exitStep c) ⟨⊥, 0, 1⟩
  { direction := direction
    elevationAngleDegrees := s.maxAngle.unbot' 0
    distanceKm := s.maxDistance / 1000 }

end V2

namespace Main0

/-- The `for (let step = 1;; step++)` ray-march loop of
`calculateHorizonForDirection` in the oldest variant (the standalone
`main.ts` kept in the repository). -/
noncomputable def scanGo (c : ScanCtx) : ℕ → ScanState → ScanState
  | 0, s => s
  | fuel + 1, s =>
    if oobAt c s.step then s
    else
      let angle := angleAt c s.step
      let s1 : ScanState :=
        if s.maxAngle < (angle : WithBot ℝ) then
          { maxAngle := (angle : WithBot ℝ)
            maxDistance := distanceAt c s.step
            step := s.step }
        else s
      Main0.scanGo c fuel { maxAngle := s1.maxAngle, maxDistance := s1.maxDistance, step := s.step + 1 }

/-- `calculateHorizonForDirection` from the oldest variant: the same march,
except the base elevation is computed inside the function as
`rasterData[Math.floor(startY) * width + Math.floor(startX)] ?? 0`. -/
noncomputable def calculateHorizonForDirection (rasterData : List ℝ) (width height : ℕ)
    (startX startY direction pixelSize : ℝ) : HorizonResult :=
  let baseElevation := arrayGet rasterData (⌊startY⌋ * width + ⌊startX⌋)
  let c := dirCtx rasterData width height startX startY direction pixelSize baseElevation
  let s := Main0.scanGo c (exitStep c) ⟨⊥, 0, 1⟩
  { direction := direction
    elevationAngleDegrees := s.maxAngle.unbot' 0
    distanceKm := s.maxDistance / 1000 }

end Main0

/-- Invariant of the ray-march loop on entry to the iteration with step
counter `k`: either no in-bounds sample has been processed yet (`k = 1` and
the state still holds the initial `-Infinity`), or some step `m < k` holds
the strict running maximum of the angles over steps `1 ≤ n < k`, with `m`
the earliest step attaining it. -/
def ScanInv (c : ScanCtx) (k : ℕ) (s : ScanState) : Prop :=
  (s.maxAngle = ⊥ ∧ s.maxDistance = 0 ∧ k = 1) ∨
  (∃ m, 1 ≤ m ∧ m < k ∧ s.maxAngle = (angleAt c m : WithBot ℝ) ∧
    s.maxDistance = distanceAt c m ∧
    (∀ n, 1 ≤ n → n < k → angleAt c n ≤ angleAt c m) ∧
    (∀ n, 1 ≤ n → n < k → angleAt c m ≤ angleAt c n → m ≤ n))

/-! ### Facts about the exit step -/

theorem exitStep_mem (c : ScanCtx) (h : ∃ n, 1 ≤ n ∧ oobAt c n) :
    1 ≤ exitStep c ∧ oobAt c (exitStep c) :=
  Nat.sInf_mem h

theorem not_oobAt_of_lt_exitStep (c : ScanCtx) {n : ℕ} (h1 : 1 ≤ n)
    (h2 : n < exitStep c) : ¬ oobAt c n :=
  fun ho => Nat.not_mem_of_lt_sInf h2 ⟨h1, ho⟩

theorem exitStep_le (c : ScanCtx) {n : ℕ} (h1 : 1 ≤ n) (ho : oobAt c n) :
    exitStep c ≤ n :=
  Nat.sInf_le ⟨h1, ho⟩

theorem exitStep_eq (c : ScanCtx) {E : ℕ} (h1 : 1 ≤ E) (ho : oobAt c E)
    (hmin : ∀ n, 1 ≤ n → n < E → ¬ oobAt c n) : exitStep c = E := by
  refine le_antisymm (exitStep_le c h1 ho) ?_
  by_contra h
  push_neg at h
  have hm := exitStep_mem c ⟨E, h1, ho⟩
  exact hmin _ hm.1 h hm.2

/-! ### Basic behaviour of the loop -/

theorem scanGo_stop (c : ScanCtx) (fuel : ℕ) {s : ScanState}
    (h : oobAt c s.step) : scanGo c fuel s = s := by
  cases fuel with
  | zero => rfl
  | succ fuel => rw [scanGo, if_pos h]

theorem scanGo_add (c : ScanCtx) (a b : ℕ) (s : ScanState) :
    scanGo c (a + b) s = scanGo c b (scanGo c a s) := by
  induction a generalizing s with
  | zero => rw [Nat.zero_add, scanGo]
  | succ a ih =>
    by_cases h : oobAt c s.step
    · rw [scanGo_stop c (a + 1 + b) h, scanGo_stop c (a + 1) h, scanGo_stop c b h]
    · have hadd : a + 1 + b = (a + b) + 1 := by omega
      rw [hadd, scanGo, scanGo, if_neg h, if_neg h]
      exact ih _

/-- Running the loop over in-bounds steps preserves the invariant and
advances the step counter by exactly the fuel spent. -/
theorem scanGo_run (c : ScanCtx) {E : ℕ} (hin : ∀ n, 1 ≤ n → n < E → ¬ oobAt c n) :
    ∀ togo k (s : ScanState), 1 ≤ k → k + togo ≤ E → s.step = k → ScanInv c k s →
      (scanGo c togo s).step = k + togo ∧ ScanInv c (k + togo) (scanGo c togo s) := by
  intro togo
  induction togo with
  | zero =>
    intro k s hk hle hs hinv
    rw [scanGo, Nat.add_zero]
    exact ⟨hs, hinv⟩
  | succ togo ih =>
    intro k s hk hle hs hinv
    have hklt : k < E := by omega
    have hnotoob : ¬ oobAt c s.step := by rw [hs]; exact hin k hk hklt
    rw [scanGo, if_neg hnotoob]
    dsimp only
    rw [hs]
    by_cases hlt : s.maxAngle < ((angleAt c k : ℝ) : WithBot ℝ)
    · rw [if_pos hlt]
      dsimp only
      have hstep : k + (togo + 1) = (k + 1) + togo := by omega
      rw [hstep]
      refine ih (k + 1) _ (by omega) (by omega) rfl ?_
      refine Or.inr ⟨k, hk, Nat.lt_succ_self k, rfl, rfl, ?_, ?_⟩
      · intro n h1 h2
        rcases Nat.lt_succ_iff_lt_or_eq.mp h2 with h2 | h2
        · rcases hinv with ⟨_, _, hk1⟩ | ⟨m, hm1, hmk, hsA, _, hbnd, _⟩
          · omega
          · have h3 : angleAt c n ≤ angleAt c m := hbnd n h1 h2
            have h4 : angleAt c m < angleAt c k := by
              rw [hsA] at hlt
              exact_mod_cast hlt
            linarith
        · rw [h2]
      · intro n h1 h2 h3
        by_contra hcon
        push_neg at hcon
        rcases hinv with ⟨_, _, hk1⟩ | ⟨m, hm1, hmk, hsA, _, hbnd, _⟩
        · omega
        · have h4 : angleAt c n ≤ angleAt c m := hbnd n h1 hcon
          have h5 : angleAt c m < angleAt c k := by
            rw [hsA] at hlt
            exact_mod_cast hlt
          linarith
    · rw [if_neg hlt]
      have hstep : k + (togo + 1) = (k + 1) + togo := by omega
      rw [hstep]
      refine ih (k + 1) _ (by omega) (by omega) rfl ?_
      rcases hinv with ⟨hA, hD, hk1⟩ | ⟨m, hm1, hmk, hsA, hsD, hbnd, hfst⟩
      · exact absurd (hA ▸ WithBot.bot_lt_coe (angleAt c k)) hlt
      · have hle2 : angleAt c k ≤ angleAt c m := by
          rw [hsA] at hlt
          exact_mod_cast not_lt.mp hlt
        refine Or.inr ⟨m, hm1, by omega, hsA, hsD, ?_, ?_⟩
        · intro n h1 h2
          rcases Nat.lt_succ_iff_lt_or_eq.mp h2 with h2 | h2
          · exact hbnd n h1 h2
          · rw [h2]; exact hle2
        · intro n h1 h2 h3
          rcases Nat.lt_succ_iff_lt_or_eq.mp h2 with h2 | h2
          · exact hfst n h1 h2 h3
          · omega

/-! ### Termination of the ray march -/

/-- Along any unit direction vector the ray eventually leaves the raster:
one component of the step vector has absolute value at least 1/2, so the
corresponding pixel coordinate grows (or shrinks) without bound. -/
theorem exists_oobAt_of_unit (c : ScanCtx)
    (hunit : c.stepX ^ 2 + c.stepY ^ 2 = 1) :
    ∃ n, 1 ≤ n ∧ oobAt c n := by
  have hhalf : 1 / 2 ≤ |c.stepX| ∨ 1 / 2 ≤ |c.stepY| := by
    by_contra h
    push_neg at h
    obtain ⟨h1, h2⟩ := h
    nlinarith [sq_abs c.stepX, sq_abs c.stepY, abs_nonneg c.stepX, abs_nonneg c.stepY]
  have hBpos : (1 : ℝ) ≤ |c.observerX| + |c.observerY| + c.width + c.height + 1 := by
    have h1 := abs_nonneg c.observerX
    have h2 := abs_nonneg c.observerY
    have h3 : (0 : ℝ) ≤ c.width := Nat.cast_nonneg _
    have h4 : (0 : ℝ) ≤ c.height := Nat.cast_nonneg _
    linarith
  set B : ℝ := |c.observerX| + |c.observerY| + c.width + c.height + 1 with hB
  set N : ℕ := ⌈2 * B⌉₊ with hN
  have hN1 : 1 ≤ N := Nat.ceil_pos.mpr (by linarith : (0 : ℝ) < 2 * B)
  have hNB : 2 * B ≤ (N : ℝ) := Nat.le_ceil _
  have hNnn : (0 : ℝ) ≤ (N : ℝ) := Nat.cast_nonneg _
  refine ⟨N, hN1, ?_⟩
  unfold oobAt isOutOfBounds
  rcases hhalf with hx | hy
  · rcases le_abs.mp hx with hpos | hneg
    · refine Or.inr (Or.inr (Or.inl ?_))
      rw [pixelXAt, Int.le_floor]
      push_cast
      have hstep : (1 / 2 : ℝ) * N ≤ c.stepX * N :=
        mul_le_mul_of_nonneg_right hpos hNnn
      have habs := neg_abs_le c.observerX
      have hh : (0 : ℝ) ≤ c.height := Nat.cast_nonneg _
      have h2 := abs_nonneg c.observerY
      linarith
    · refine Or.inl ?_
      rw [pixelXAt, Int.floor_lt]
      push_cast
      have hstep : c.stepX * N ≤ -(1 / 2 : ℝ) * N := by
        have : c.stepX ≤ -(1 / 2 : ℝ) := by linarith [neg_le.mp (neg_le_neg hneg)]
        exact mul_le_mul_of_nonneg_right this hNnn
      have habs := le_abs_self c.observerX
      have hw : (0 : ℝ) ≤ c.width := Nat.cast_nonneg _
      have hh : (0 : ℝ) ≤ c.height := Nat.cast_nonneg _
      have h2 := abs_nonneg c.observerY
      linarith
  · rcases le_abs.mp hy with hpos | hneg
    · refine Or.inr (Or.inr (Or.inr ?_))
      rw [pixelYAt, Int.le_floor]
      push_cast
      have hstep : (1 / 2 : ℝ) * N ≤ c.stepY * N :=
        mul_le_mul_of_nonneg_right hpos hNnn
      have habs := neg_abs_le c.observerY
      have hw : (0 : ℝ) ≤ c.width := Nat.cast_nonneg _
      have h1 := abs_nonneg c.observerX
      linarith
    · refine Or.inr (Or.inl ?_)
      rw [pixelYAt, Int.floor_lt]
      push_cast
      have hstep : c.stepY * N ≤ -(1 / 2 : ℝ) * N := by
        have : c.stepY ≤ -(1 / 2 : ℝ) := by linarith [neg_le.mp (neg_le_neg hneg)]
        exact mul_le_mul_of_nonneg_right this hNnn
      have habs := le_abs_self c.observerY
      have hw : (0 : ℝ) ≤ c.width := Nat.cast_nonneg _
      have hh : (0 : ℝ) ≤ c.height := Nat.cast_nonneg _
      have h1 := abs_nonneg c.observerX
      linarith

/-- The direction context always carries a unit step vector. -/
theorem dirCtx_unit (rasterData : List ℝ) (width height : ℕ)
    (observerX observerY direction pixelSize baseElevation : ℝ) :
    (dirCtx rasterData width height observerX observerY direction pixelSize
        baseElevation).stepX ^ 2 +
      (dirCtx rasterData width height observerX observerY direction pixelSize
        baseElevation).stepY ^ 2 = 1 := by
  show Real.sin (direction * DEG_TO_RAD) ^ 2 + (-Real.cos (direction * DEG_TO_RAD)) ^ 2 = 1
  rw [neg_sq]
  exact Real.sin_sq_add_cos_sq _

/-! ### The scan result as a maximum over the visited steps -/

/-- If the ray eventually leaves the raster and step 1 is in bounds, then the
state after running the loop to its exit holds the greatest angle over the
visited steps `1 ≤ n < exitStep c`, together with the distance of the
earliest step attaining it. -/
theorem scan_result_spec (c : ScanCtx) (hne : ∃ n, 1 ≤ n ∧ oobAt c n)
    (h1 : ¬ oobAt c 1) :
    ∃ m, 1 ≤ m ∧ m < exitStep c ∧
      (scanGo c (exitStep c) ⟨⊥, 0, 1⟩).maxAngle = (angleAt c m : WithBot ℝ) ∧
      (scanGo c (exitStep c) ⟨⊥, 0, 1⟩).maxDistance = distanceAt c m ∧
      (∀ n, 1 ≤ n → n < exitStep c → angleAt c n ≤ angleAt c m) ∧
      (∀ n, 1 ≤ n → n < exitStep c → angleAt c m ≤ angleAt c n → m ≤ n) := by
  obtain ⟨hE1, hEoob⟩ := exitStep_mem c hne
  have hE2 : 2 ≤ exitStep c := by
    have hne1 : exitStep c ≠ 1 := fun hfalse => h1 (hfalse ▸ hEoob)
    omega
  have hin : ∀ n, 1 ≤ n → n < exitStep c → ¬ oobAt c n :=
    fun n a b => not_oobAt_of_lt_exitStep c a b
  have hrun := scanGo_run c hin (exitStep c - 1) 1 ⟨⊥, 0, 1⟩ le_rfl (by omega) rfl
    (Or.inl ⟨rfl, rfl, rfl⟩)
  have hstep : (scanGo c (exitStep c - 1) ⟨⊥, 0, 1⟩).step = exitStep c := by
    rw [hrun.1]; omega
  have heq : scanGo c (exitStep c) ⟨⊥, 0, 1⟩ = scanGo c (exitStep c - 1) ⟨⊥, 0, 1⟩ := by
    conv_lhs => rw [show exitStep c = (exitStep c - 1) + 1 by omega]
    rw [scanGo_add]
    exact scanGo_stop c 1 (by rw [hstep]; exact hEoob)
  have hinv : ScanInv c (exitStep c) (scanGo c (exitStep c - 1) ⟨⊥, 0, 1⟩) := by
    have h := hrun.2
    rwa [show 1 + (exitStep c - 1) = exitStep c by omega] at h
  rcases hinv with ⟨_, _, habs⟩ | ⟨m, hm1, hmE, hA, hD, hbnd, hfst⟩
  · omega
  · refine ⟨m, hm1, hmE, ?_, ?_, hbnd, hfst⟩
    · rw [heq]; exact hA
    · rw [heq]; exact hD

/-- Once the exit is reachable, extra fuel does not change the loop result:
any run with at least `exitStep c - 1` fuel computes the same final state. -/
theorem scanGo_stable (c : ScanCtx) (hne : ∃ n, 1 ≤ n ∧ oobAt c n) :
    ∀ fuel, exitStep c - 1 ≤ fuel →
      scanGo c fuel ⟨⊥, 0, 1⟩ = scanGo c (exitStep c - 1) ⟨⊥, 0, 1⟩ := by
  intro fuel hf
  obtain ⟨hE1, hEoob⟩ := exitStep_mem c hne
  have hin : ∀ n, 1 ≤ n → n < exitStep c → ¬ oobAt c n :=
    fun n a b => not_oobAt_of_lt_exitStep c a b
  have hrun := scanGo_run c hin (exitStep c - 1) 1 ⟨⊥, 0, 1⟩ le_rfl (by omega) rfl
    (Or.inl ⟨rfl, rfl, rfl⟩)
  have hstep : (scanGo c (exitStep c - 1) ⟨⊥, 0, 1⟩).step = exitStep c := by
    rw [hrun.1]; omega
  rw [show fuel = (exitStep c - 1) + (fuel - (exitStep c - 1)) by omega, scanGo_add]
  exact scanGo_stop c _ (by rw [hstep]; exact hEoob)

theorem findHorizon_direction_eq (data : List ℝ) (w h : ℕ) (x y d ps base : ℝ) :
    (findHorizon data w h x y d ps base).direction = d := rfl

theorem findHorizon_elevation_eq (data : List ℝ) (w h : ℕ) (x y d ps base : ℝ) :
    (findHorizon data w h x y d ps base).elevationAngleDegrees =
      ((scanGo (dirCtx data w h x y d ps base)
        (exitStep (dirCtx data w h x y d ps base)) ⟨⊥, 0, 1⟩).maxAngle).unbot' 0 := rfl

theorem findHorizon_distance_eq (data : List ℝ) (w h : ℕ) (x y d ps base : ℝ) :
    (findHorizon data w h x y d ps base).distanceKm =
      (scanGo (dirCtx data w h x y d ps base)
        (exitStep (dirCtx data w h x y d ps base)) ⟨⊥, 0, 1⟩).maxDistance / 1000 := rfl

theorem atan2_zero_of_nonneg (t : ℝ) (ht : 0 ≤ t) : atan2 0 t = 0 := by
  unfold atan2
  by_cases h0 : 0 < t
  · rw [if_pos h0, zero_div, Real.arctan_zero]
  · have ht0 : t = 0 := le_antisymm (not_lt.mp h0) ht
    subst ht0
    norm_num

/-- On a raster whose buffer has exactly `width * height` samples, all equal
to the base elevation, every in-bounds visited sample reads back the base
elevation. -/
theorem elevationAt_eq_of_flat (c : ScanCtx) (n : ℕ)
    (hlen : c.rasterData.length = c.width * c.height)
    (hflat : ∀ v ∈ c.rasterData, v = c.baseElevation) (hn : ¬ oobAt c n) :
    elevationAt c n = c.baseElevation := by
  unfold oobAt isOutOfBounds at hn
  push_neg at hn
  obtain ⟨h1, h2, h3, h4⟩ := hn
  unfold elevationAt arrayGet
  have hidx0 : 0 ≤ pixelYAt c n * (c.width : ℤ) + pixelXAt c n :=
    add_nonneg (mul_nonneg h2 (Int.natCast_nonneg _)) h1
  have hprod : pixelYAt c n * (c.width : ℤ) + pixelXAt c n <
      (c.width : ℤ) * (c.height : ℤ) := by
    nlinarith [h2, h3, h4, Int.natCast_nonneg c.width]
  have hlen' : ((c.rasterData.length : ℤ)) = (c.width : ℤ) * (c.height : ℤ) := by
    rw [hlen]; push_cast; ring
  have hnat : (pixelYAt c n * (c.width : ℤ) + pixelXAt c n).toNat <
      c.rasterData.length := by omega
  rw [if_pos hidx0, List.getD_eq_getElem _ _ hnat]
  exact hflat _ (List.getElem_mem hnat)

/-! ### The claims -/

/-- Claim C1: whenever the scan visits at least one in-bounds sample, the
reported `elevationAngleDegrees` is the maximum over all in-bounds visited
steps `1 ≤ n < exitStep` of `atan2(elevation - baseElevation, step * pixelSize)`
in degrees (`angleAt`), and the reported distance is the distance of the
earliest step attaining that maximum (ties keep the earlier sample, because
the update is strict). -/
theorem findHorizon_reports_steepest_first (data : List ℝ) (w h : ℕ)
    (x y d ps base : ℝ)
    (h1 : ¬ oobAt (dirCtx data w h x y d ps base) 1) :
    ∃ m, 1 ≤ m ∧ m < exitStep (dirCtx data w h x y d ps base) ∧
      (findHorizon data w h x y d ps base).elevationAngleDegrees =
        angleAt (dirCtx data w h x y d ps base) m ∧
      (findHorizon data w h x y d ps base).distanceKm =
        distanceAt (dirCtx data w h x y d ps base) m / 1000 ∧
      (∀ n, 1 ≤ n → n < exitStep (dirCtx data w h x y d ps base) →
        angleAt (dirCtx data w h x y d ps base) n ≤
          angleAt (dirCtx data w h x y d ps base) m) ∧
      (∀ n, 1 ≤ n → n < exitStep (dirCtx data w h x y d ps base) →
        angleAt (dirCtx data w h x y d ps base) m ≤
          angleAt (dirCtx data w h x y d ps base) n → m ≤ n) := by
  have hne := exists_oobAt_of_unit _ (dirCtx_unit data w h x y d ps base)
  obtain ⟨m, hm1, hmE, hA, hD, hbnd, hfst⟩ := scan_result_spec _ hne h1
  refine ⟨m, hm1, hmE, ?_, ?_, hbnd, hfst⟩
  · rw [findHorizon_elevation_eq, hA, WithBot.unbot'_coe]
  · rw [findHorizon_distance_eq, hD]

/-- Witness for C1 at a concrete input: a 3×3 flat raster, observer pixel
(1,1), direction 0 (due north), whose first candidate pixel (1,0) is in
bounds. -/
theorem findHorizon_reports_steepest_first_witness :
    (¬ oobAt (dirCtx (List.replicate 9 (0 : ℝ)) 3 3 1 1 0 1 0) 1) ∧
    (∃ m, 1 ≤ m ∧ m < exitStep (dirCtx (List.replicate 9 (0 : ℝ)) 3 3 1 1 0 1 0) ∧
      (findHorizon (List.replicate 9 (0 : ℝ)) 3 3 1 1 0 1 0).elevationAngleDegrees =
        angleAt (dirCtx (List.replicate 9 (0 : ℝ)) 3 3 1 1 0 1 0) m ∧
      (findHorizon (List.replicate 9 (0 : ℝ)) 3 3 1 1 0 1 0).distanceKm =
        distanceAt (dirCtx (List.replicate 9 (0 : ℝ)) 3 3 1 1 0 1 0) m / 1000 ∧
      (∀ n, 1 ≤ n → n < exitStep (dirCtx (List.replicate 9 (0 : ℝ)) 3 3 1 1 0 1 0) →
        angleAt (dirCtx (List.replicate 9 (0 : ℝ)) 3 3 1 1 0 1 0) n ≤
          angleAt (dirCtx (List.replicate 9 (0 : ℝ)) 3 3 1 1 0 1 0) m) ∧
      (∀ n, 1 ≤ n → n < exitStep (dirCtx (List.replicate 9 (0 : ℝ)) 3 3 1 1 0 1 0) →
        angleAt (dirCtx (List.replicate 9 (0 : ℝ)) 3 3 1 1 0 1 0) m ≤
          angleAt (dirCtx (List.replicate 9 (0 : ℝ)) 3 3 1 1 0 1 0) n → m ≤ n)) := by
  have hyp : ¬ oobAt (dirCtx (List.replicate 9 (0 : ℝ)) 3 3 1 1 0 1 0) 1 := by
    norm_num [oobAt, isOutOfBounds, pixelXAt, pixelYAt, dirCtx, Real.sin_zero,
      Real.cos_zero, Int.floor_one, Int.floor_zero]
  exact ⟨hyp, findHorizon_reports_steepest_first _ 3 3 1 1 0 1 0 hyp⟩

/-- Claim C2 (amended): on a perfectly flat grid (a full-size buffer all of
whose samples equal the observer's base elevation, with a non-negative pixel
size) every direction that visits at least one in-bounds sample reports
`elevationAngleDegrees = 0` — but `distanceKm` is `pixelSize / 1000`, the
distance of the first visited sample, not 0: the first sample's angle 0
strictly beats the initial `-Infinity` and records its distance. -/
theorem findHorizon_flat_grid (data : List ℝ) (w h : ℕ) (x y d ps base : ℝ)
    (hlen : data.length = w * h) (hflat : ∀ v ∈ data, v = base) (hps : 0 ≤ ps)
    (h1 : ¬ oobAt (dirCtx data w h x y d ps base) 1) :
    (findHorizon data w h x y d ps base).elevationAngleDegrees = 0 ∧
    (findHorizon data w h x y d ps base).distanceKm = ps / 1000 := by
  have hne := exists_oobAt_of_unit _ (dirCtx_unit data w h x y d ps base)
  obtain ⟨m, hm1, hmE, hA, hD, hbnd, hfst⟩ :=
    scan_result_spec (dirCtx data w h x y d ps base) hne h1
  have hang : ∀ n, 1 ≤ n → n < exitStep (dirCtx data w h x y d ps base) →
      angleAt (dirCtx data w h x y d ps base) n = 0 := by
    intro n hn1 hnE
    have hnoob := not_oobAt_of_lt_exitStep (dirCtx data w h x y d ps base) hn1 hnE
    unfold angleAt
    rw [elevationAt_eq_of_flat _ n hlen hflat hnoob, sub_self,
      atan2_zero_of_nonneg _ (by
        unfold distanceAt
        exact mul_nonneg (Nat.cast_nonneg n) hps), zero_mul]
  have hm0 : angleAt (dirCtx data w h x y d ps base) m = 0 := hang m hm1 hmE
  constructor
  · rw [findHorizon_elevation_eq, hA, WithBot.unbot'_coe, hm0]
  · have h1E : 1 < exitStep (dirCtx data w h x y d ps base) :=
      lt_of_le_of_lt hm1 hmE
    have hm1' : m ≤ 1 := hfst 1 le_rfl h1E (by rw [hm0, hang 1 le_rfl h1E])
    have hmeq : m = 1 := le_antisymm hm1' hm1
    rw [findHorizon_distance_eq, hD, hmeq]
    unfold distanceAt dirCtx
    norm_num

/-- Witness for the amended C2 on a concrete flat raster. -/
theorem findHorizon_flat_grid_witness :
    ((List.replicate 9 (0 : ℝ)).length = 3 * 3 ∧
      (∀ v ∈ List.replicate 9 (0 : ℝ), v = (0 : ℝ)) ∧ (0 : ℝ) ≤ 1000 ∧
      ¬ oobAt (dirCtx (List.replicate 9 (0 : ℝ)) 3 3 1 1 0 1000 0) 1) ∧
    ((findHorizon (List.replicate 9 (0 : ℝ)) 3 3 1 1 0 1000 0).elevationAngleDegrees = 0 ∧
      (findHorizon (List.replicate 9 (0 : ℝ)) 3 3 1 1 0 1000 0).distanceKm = 1000 / 1000) := by
  have hoob : ¬ oobAt (dirCtx (List.replicate 9 (0 : ℝ)) 3 3 1 1 0 1000 0) 1 := by
    norm_num [oobAt, isOutOfBounds, pixelXAt, pixelYAt, dirCtx, Real.sin_zero,
      Real.cos_zero, Int.floor_one, Int.floor_zero]
  have hflat : ∀ v ∈ List.replicate 9 (0 : ℝ), v = (0 : ℝ) := by
    intro v hv
    exact List.eq_of_mem_replicate hv
  exact ⟨⟨by norm_num, hflat, by norm_num, hoob⟩,
    findHorizon_flat_grid _ 3 3 1 1 0 1000 0 (by norm_num) hflat (by norm_num) hoob⟩

/-- Counterexample to C2 as stated: a 3×3 perfectly flat raster (all samples
0, base elevation 0), observer pixel (1,1), direction 0, pixel size 1000 m.
The direction visits the in-bounds sample (1,0), yet the reported
`distanceKm` is 1, not 0. -/
theorem flat_grid_distance_counterexample :
    (∀ v ∈ List.replicate 9 (0 : ℝ), v = (0 : ℝ)) ∧
    (¬ oobAt (dirCtx (List.replicate 9 (0 : ℝ)) 3 3 1 1 0 1000 0) 1) ∧
    (findHorizon (List.replicate 9 (0 : ℝ)) 3 3 1 1 0 1000 0).distanceKm = 1 ∧
    (1 : ℝ) ≠ 0 := by
  have hnoob1 : ¬ oobAt (dirCtx (List.replicate 9 (0 : ℝ)) 3 3 1 1 0 1000 0) 1 := by
    norm_num [oobAt, isOutOfBounds, pixelXAt, pixelYAt, dirCtx, Real.sin_zero,
      Real.cos_zero, Int.floor_one, Int.floor_zero]
  have hoob2 : oobAt (dirCtx (List.replicate 9 (0 : ℝ)) 3 3 1 1 0 1000 0) 2 := by
    unfold oobAt isOutOfBounds
    refine Or.inr (Or.inl ?_)
    show ⌊(1 : ℝ) + -Real.cos ((0 : ℝ) * DEG_TO_RAD) * (2 : ℕ)⌋ < 0
    rw [zero_mul, Real.cos_zero]
    norm_num
  have hE : exitStep (dirCtx (List.replicate 9 (0 : ℝ)) 3 3 1 1 0 1000 0) = 2 := by
    refine exitStep_eq _ (by norm_num) hoob2 ?_
    intro n hn1 hn2
    have : n = 1 := by omega
    subst this
    exact hnoob1
  have hlt1 : ((⊥ : WithBot ℝ)) <
      ((angleAt (dirCtx (List.replicate 9 (0 : ℝ)) 3 3 1 1 0 1000 0) 1 : ℝ) : WithBot ℝ) :=
    WithBot.bot_lt_coe _
  have hscan : (scanGo (dirCtx (List.replicate 9 (0 : ℝ)) 3 3 1 1 0 1000 0) 2
      ⟨⊥, 0, 1⟩).maxDistance =
      distanceAt (dirCtx (List.replicate 9 (0 : ℝ)) 3 3 1 1 0 1000 0) 1 := by
    rw [show (2 : ℕ) = 1 + 1 from rfl, scanGo]
    rw [if_neg hnoob1]
    dsimp only
    rw [if_pos hlt1]
    dsimp only
    rw [scanGo]
    rw [if_pos hoob2]
  refine ⟨fun v hv => List.eq_of_mem_replicate hv, hnoob1, ?_, by norm_num⟩
  rw [findHorizon_distance_eq, hE, hscan]
  unfold distanceAt dirCtx
  norm_num

/-- Claim C5: if the very first candidate pixel is already out of bounds,
no in-bounds sample is ever visited and the scan reports the zero sentinel:
`elevationAngleDegrees = 0` and `distanceKm = 0`. -/
theorem findHorizon_zero_sentinel (data : List ℝ) (w h : ℕ) (x y d ps base : ℝ)
    (h1 : oobAt (dirCtx data w h x y d ps base) 1) :
    findHorizon data w h x y d ps base = ⟨d, 0, 0⟩ := by
  have hE : exitStep (dirCtx data w h x y d ps base) = 1 :=
    exitStep_eq _ le_rfl h1 (fun n hn1 hn2 => by omega)
  have hscan : scanGo (dirCtx data w h x y d ps base) 1 ⟨⊥, 0, 1⟩ = ⟨⊥, 0, 1⟩ :=
    scanGo_stop _ 1 h1
  refine HorizonResult.ext (findHorizon_direction_eq data w h x y d ps base) ?_ ?_
  · rw [findHorizon_elevation_eq, hE, hscan]
    exact WithBot.unbot'_bot 0
  · rw [findHorizon_distance_eq, hE, hscan]
    norm_num

/-- Witness for C5: observer at pixel (0,0), direction 0 (north) steps to
pixel (0,-1), which is immediately out of bounds. -/
theorem findHorizon_zero_sentinel_witness :
    oobAt (dirCtx ([] : List ℝ) 3 3 0 0 0 1 0) 1 ∧
    findHorizon ([] : List ℝ) 3 3 0 0 0 1 0 = ⟨0, 0, 0⟩ := by
  have h1 : oobAt (dirCtx ([] : List ℝ) 3 3 0 0 0 1 0) 1 := by
    unfold oobAt isOutOfBounds
    refine Or.inr (Or.inl ?_)
    show ⌊(0 : ℝ) + -Real.cos ((0 : ℝ) * DEG_TO_RAD) * (1 : ℕ)⌋ < 0
    rw [zero_mul, Real.cos_zero]
    norm_num
  exact ⟨h1, findHorizon_zero_sentinel _ 3 3 0 0 0 1 0 h1⟩

/-- `calculateHorizon` unfolded to its mapping form. -/
theorem calculateHorizon_eq (projection : ℝ → ℝ → ℝ × ℝ)
    (originX pixelWidth originY pixelHeight : ℝ) (rasterData : List ℝ)
    (width height : ℕ) (pixelSize : ℝ) (latitude longitude : ℝ)
    (startDirection endDirection : ℤ) :
    calculateHorizon projection originX pixelWidth originY pixelHeight rasterData
        width height pixelSize latitude longitude startDirection endDirection =
      (List.range (endDirection - startDirection + 1).toNat).map
        (fun directionOffset : ℕ =>
          findHorizon rasterData width height
            (toPixel latitude longitude originX pixelWidth originY pixelHeight projection).1
            (toPixel latitude longitude originX pixelWidth originY pixelHeight projection).2
            ((startDirection : ℝ) + directionOffset) pixelSize
            (queryBaseElevation projection originX pixelWidth originY pixelHeight
              rasterData width latitude longitude)) := rfl

/-- Claim C3: for `startDirection ≤ endDirection`, `calculateHorizon`
returns exactly `endDirection - startDirection + 1` results whose
`direction` fields are the integers from `startDirection` to `endDirection`
inclusive, in ascending order. -/
theorem calculateHorizon_count_and_order (projection : ℝ → ℝ → ℝ × ℝ)
    (originX pixelWidth originY pixelHeight : ℝ) (rasterData : List ℝ)
    (width height : ℕ) (pixelSize : ℝ) (latitude longitude : ℝ)
    (startDirection endDirection : ℤ)
    (hle : startDirection ≤ endDirection) :
    (((calculateHorizon projection originX pixelWidth originY pixelHeight rasterData
        width height pixelSize latitude longitude startDirection endDirection).length : ℤ) =
      endDirection - startDirection + 1) ∧
    ((calculateHorizon projection originX pixelWidth originY pixelHeight rasterData
        width height pixelSize latitude longitude startDirection endDirection).map
          HorizonResult.direction =
      (List.range (endDirection - startDirection + 1).toNat).map
        (fun directionOffset : ℕ => (startDirection : ℝ) + directionOffset)) := by
  rw [calculateHorizon_eq]
  constructor
  · simp only [List.length_map, List.length_range]
    omega
  · rw [List.map_map]
    rfl

/-- Witness for C3 at a concrete range 0..2. -/
theorem calculateHorizon_count_and_order_witness :
    ((0 : ℤ) ≤ 2) ∧
    ((((calculateHorizon (fun a b => (a, b)) 0 1 0 1 ([] : List ℝ) 3 3 1 0 0 0 2).length : ℤ) =
        2 - 0 + 1) ∧
      ((calculateHorizon (fun a b => (a, b)) 0 1 0 1 ([] : List ℝ) 3 3 1 0 0 0 2).map
          HorizonResult.direction =
        (List.range ((2 : ℤ) - 0 + 1).toNat).map
          (fun directionOffset : ℕ => ((0 : ℤ) : ℝ) + directionOffset))) :=
  ⟨by norm_num,
    calculateHorizon_count_and_order (fun a b => (a, b)) 0 1 0 1 [] 3 3 1 0 0 0 2 (by norm_num)⟩

/-- Claim C4: when `startDirection > endDirection` the result sequence is
empty — there is no wraparound through 360/0. -/
theorem calculateHorizon_empty_of_reversed (projection : ℝ → ℝ → ℝ × ℝ)
    (originX pixelWidth originY pixelHeight : ℝ) (rasterData : List ℝ)
    (width height : ℕ) (pixelSize : ℝ) (latitude longitude : ℝ)
    (startDirection endDirection : ℤ)
    (hgt : endDirection < startDirection) :
    calculateHorizon projection originX pixelWidth originY pixelHeight rasterData
      width height pixelSize latitude longitude startDirection endDirection = [] := by
  rw [calculateHorizon_eq, show (endDirection - startDirection + 1).toNat = 0 by omega]
  rfl

/-- Witness for C4: requesting 350→10 yields the empty sequence. -/
theorem calculateHorizon_empty_of_reversed_witness :
    ((10 : ℤ) < 350) ∧
    calculateHorizon (fun a b => (a, b)) 0 1 0 1 ([] : List ℝ) 3 3 1 0 0 350 10 = [] :=
  ⟨by norm_num,
    calculateHorizon_empty_of_reversed (fun a b => (a, b)) 0 1 0 1 [] 3 3 1 0 0 350 10
      (by norm_num)⟩

/-- Claim C8: for a fixed loaded grid, `calculateHorizon` is a pure function
of its arguments: any two runs with identical arguments yield identical
result sequences (the grid, being an immutable value of the embedding, is
untouched by construction). -/
theorem calculateHorizon_deterministic (projection : ℝ → ℝ → ℝ × ℝ)
    (originX pixelWidth originY pixelHeight : ℝ) (rasterData : List ℝ)
    (width height : ℕ) (pixelSize : ℝ) (latitude longitude : ℝ)
    (startDirection endDirection : ℤ) (run1 run2 : List HorizonResult)
    (h1 : run1 = calculateHorizon projection originX pixelWidth originY pixelHeight
      rasterData width height pixelSize latitude longitude startDirection endDirection)
    (h2 : run2 = calculateHorizon projection originX pixelWidth originY pixelHeight
      rasterData width height pixelSize latitude longitude startDirection endDirection) :
    run1 = run2 :=
  h1.trans h2.symm

/-- Witness for C8 at concrete arguments. -/
theorem calculateHorizon_deterministic_witness :
    calculateHorizon (fun a b => (a, b)) 0 1 0 1 ([] : List ℝ) 3 3 1 0 0 0 2 =
      calculateHorizon (fun a b => (a, b)) 0 1 0 1 ([] : List ℝ) 3 3 1 0 0 0 2 :=
  calculateHorizon_deterministic (fun a b => (a, b)) 0 1 0 1 [] 3 3 1 0 0 0 2 _ _ rfl rfl

/-- Claim C9: `loadElevationData` fails exactly when the dataset lacks an
affine geo transform or lacks a spatial reference system, and returns the
queryable object exactly when both are present. -/
theorem loadElevationData_error_iff (d : Dataset) :
    ((∃ e, loadElevationData d = Except.error e) ↔
      d.geoTransform = none ∨ d.srs = none) ∧
    ((∃ ed, loadElevationData d = Except.ok ed) ↔
      d.geoTransform ≠ none ∧ d.srs ≠ none) := by
  rcases hgt : d.geoTransform with _ | gt
  · constructor
    · simp [loadElevationData, hgt]
    · simp [loadElevationData, hgt]
  · rcases hsrs : d.srs with _ | srs
    · constructor
      · simp [loadElevationData, hgt, hsrs]
      · simp [loadElevationData, hgt, hsrs]
    · constructor
      · simp [loadElevationData, hgt, hsrs]
      · simp [loadElevationData, hgt, hsrs]

/-- Claim C6 (amended): the observer base-elevation lookup defaults to the
missing-sample value 0 exactly when the flattened index
`floor(pixelY) * width + floor(pixelX)` falls outside the buffer — negative
or at least `rasterData.length`.  An out-of-bounds observer pixel whose
flattened index still lands inside the buffer silently reads that unrelated
sample instead (see the counterexample). -/
theorem queryBaseElevation_zero_of_index_out (projection : ℝ → ℝ → ℝ × ℝ)
    (originX pixelWidth originY pixelHeight : ℝ) (rasterData : List ℝ)
    (width : ℕ) (latitude longitude : ℝ)
    (h : ⌊(toPixel latitude longitude originX pixelWidth originY pixelHeight projection).2⌋ *
          (width : ℤ) +
        ⌊(toPixel latitude longitude originX pixelWidth originY pixelHeight projection).1⌋ < 0 ∨
      (rasterData.length : ℤ) ≤
        ⌊(toPixel latitude longitude originX pixelWidth originY pixelHeight projection).2⌋ *
          (width : ℤ) +
        ⌊(toPixel latitude longitude originX pixelWidth originY pixelHeight projection).1⌋) :
    queryBaseElevation projection originX pixelWidth originY pixelHeight
      rasterData width latitude longitude = 0 := by
  unfold queryBaseElevation arrayGet
  rcases h with h | h
  · rw [if_neg (not_le.mpr h)]
  · have h0 : (0 : ℤ) ≤
        ⌊(toPixel latitude longitude originX pixelWidth originY pixelHeight projection).2⌋ *
          (width : ℤ) +
        ⌊(toPixel latitude longitude originX pixelWidth originY pixelHeight projection).1⌋ := by
      have := Int.natCast_nonneg rasterData.length
      omega
    rw [if_pos h0]
    exact List.getD_eq_default _ _ (by omega)

/-- Witness for the amended C6: with the identity projection and a unit
transform, the observer at longitude -1 has flattened index -1 < 0, and the
base elevation is the missing-sample value 0. -/
theorem queryBaseElevation_zero_of_index_out_witness :
    (⌊(toPixel (0 : ℝ) (-1) 0 1 0 1 (fun a b => (a, b))).2⌋ * ((3 : ℕ) : ℤ) +
        ⌊(toPixel (0 : ℝ) (-1) 0 1 0 1 (fun a b => (a, b))).1⌋ < 0 ∨
      ((([0, 0, 0, 5, 0, 0, 0, 0, 0] : List ℝ).length : ℤ)) ≤
        ⌊(toPixel (0 : ℝ) (-1) 0 1 0 1 (fun a b => (a, b))).2⌋ * ((3 : ℕ) : ℤ) +
        ⌊(toPixel (0 : ℝ) (-1) 0 1 0 1 (fun a b => (a, b))).1⌋) ∧
    queryBaseElevation (fun a b => (a, b)) 0 1 0 1 ([0, 0, 0, 5, 0, 0, 0, 0, 0] : List ℝ)
      3 0 (-1) = 0 := by
  have h : ⌊(toPixel (0 : ℝ) (-1) 0 1 0 1 (fun a b => (a, b))).2⌋ * ((3 : ℕ) : ℤ) +
      ⌊(toPixel (0 : ℝ) (-1) 0 1 0 1 (fun a b => (a, b))).1⌋ < 0 := by
    norm_num [toPixel]
  exact ⟨Or.inl h,
    queryBaseElevation_zero_of_index_out (fun a b => (a, b)) 0 1 0 1 _ 3 0 (-1) (Or.inl h)⟩

/-- Counterexample to C6 as stated: with the identity projection and a unit
transform on a 3×3 grid, the observer at (longitude, latitude) = (3, 0)
projects to pixel (3, 0), which is out of bounds — yet its flattened index
is `0 * 3 + 3 = 3`, inside the buffer, so the base elevation reads the
unrelated sample `rasterData[3] = 5`, not 0. -/
theorem observer_out_of_bounds_base_counterexample :
    isOutOfBounds ⌊(toPixel (0 : ℝ) 3 0 1 0 1 (fun a b => (a, b))).1⌋
      ⌊(toPixel (0 : ℝ) 3 0 1 0 1 (fun a b => (a, b))).2⌋ 3 3 ∧
    queryBaseElevation (fun a b => (a, b)) 0 1 0 1 ([0, 0, 0, 5, 0, 0, 0, 0, 0] : List ℝ)
      3 0 3 = 5 ∧
    (5 : ℝ) ≠ 0 := by
  have h1 : (toPixel (0 : ℝ) 3 0 1 0 1 (fun a b => (a, b))).1 = 3 := by
    norm_num [toPixel]
  have h2 : (toPixel (0 : ℝ) 3 0 1 0 1 (fun a b => (a, b))).2 = 0 := by
    norm_num [toPixel]
  refine ⟨?_, ?_, by norm_num⟩
  · rw [h1, h2]
    unfold isOutOfBounds
    norm_num
  · unfold queryBaseElevation
    dsimp only
    rw [h1, h2]
    norm_num [arrayGet]
    rfl

/-- The intermediate variant's loop computes exactly the same states as the
current one. -/
theorem scanGoV2_eq_scanGo (c : ScanCtx) :
    ∀ fuel s, V2.scanGo c fuel s = scanGo c fuel s := by
  intro fuel
  induction fuel with
  | zero => intro s; rfl
  | succ fuel ih =>
    intro s
    rw [V2.scanGo, scanGo]
    by_cases hoob : oobAt c s.step
    · rw [if_pos hoob, if_pos hoob]
    · rw [if_neg hoob, if_neg hoob]
      exact ih _

/-- The oldest variant's loop computes exactly the same states as the
current one. -/
theorem scanGoMain0_eq_scanGo (c : ScanCtx) :
    ∀ fuel s, Main0.scanGo c fuel s = scanGo c fuel s := by
  intro fuel
  induction fuel with
  | zero => intro s; rfl
  | succ fuel ih =>
    intro s
    rw [Main0.scanGo, scanGo]
    by_cases hoob : oobAt c s.step
    · rw [if_pos hoob, if_pos hoob]
    · rw [if_neg hoob, if_neg hoob]
      exact ih _

/-- Claim C10: on identical inputs the current engine (`src/horizon.ts`) and
the intermediate variant return equal results, and the oldest variant —
which computes its base elevation internally as
`rasterData[floor(startY) * width + floor(startX)] ?? 0` — agrees with them
whenever that internally computed base elevation equals the supplied one. -/
theorem findHorizon_variants_agree (data : List ℝ) (w h : ℕ) (x y d ps base : ℝ) :
    (findHorizon data w h x y d ps base = V2.findHorizon data w h x y d ps base) ∧
    (arrayGet data (⌊y⌋ * (w : ℤ) + ⌊x⌋) = base →
      Main0.calculateHorizonForDirection data w h x y d ps =
        findHorizon data w h x y d ps base) := by
  constructor
  · unfold findHorizon V2.findHorizon
    dsimp only
    rw [scanGoV2_eq_scanGo]
  · intro hbase
    unfold Main0.calculateHorizonForDirection findHorizon
    dsimp only
    rw [hbase, scanGoMain0_eq_scanGo]

/-- Witness for C10 at a concrete input (empty raster, base elevation 0, so
the oldest variant's internal base lookup returns the supplied base). -/
theorem findHorizon_variants_agree_witness :
    (findHorizon ([] : List ℝ) 0 0 0 0 0 1 0 = V2.findHorizon ([] : List ℝ) 0 0 0 0 0 1 0) ∧
    (Main0.calculateHorizonForDirection ([] : List ℝ) 0 0 0 0 0 1 =
      findHorizon ([] : List ℝ) 0 0 0 0 0 1 0) :=
  ⟨(findHorizon_variants_agree [] 0 0 0 0 0 1 0).1,
    (findHorizon_variants_agree [] 0 0 0 0 0 1 0).2 (by simp [arrayGet])⟩

/-- Claim C7: for every raster, observer position and direction the
ray-march loop terminates: some step is out of bounds, the loop's exit step
is among the visited candidates, and giving the loop any fuel beyond the
exit step does not change its final state. -/
theorem rayMarch_terminates (data : List ℝ) (w h : ℕ) (x y d ps base : ℝ) :
    ∃ N, 1 ≤ N ∧ oobAt (dirCtx data w h x y d ps base) N ∧
      ∀ fuel, N ≤ fuel →
        scanGo (dirCtx data w h x y d ps base) fuel ⟨⊥, 0, 1⟩ =
          scanGo (dirCtx data w h x y d ps base) N ⟨⊥, 0, 1⟩ := by
  have hne := exists_oobAt_of_unit _ (dirCtx_unit data w h x y d ps base)
  obtain ⟨hE1, hEoob⟩ := exitStep_mem _ hne
  refine ⟨exitStep (dirCtx data w h x y d ps base), hE1, hEoob, ?_⟩
  intro fuel hf
  rw [scanGo_stable _ hne fuel (by omega)]
  exact (scanGo_stable _ hne _ (by omega : exitStep (dirCtx data w h x y d ps base) - 1 ≤
    exitStep (dirCtx data w h x y d ps base))).symm

end Horizon
